import Mathlib

/-!
# Verification of the initial-condition field-assembly pipeline

Shallow embedding of `src/sandbox/inference_aifs_single-v1.py`: the field
fetcher `get_open_data`, the geopotential-height-to-geopotential conversion
loop, the soil-variable renaming loop, and the longitude normalization
function `fix`.

Numeric grid values are modelled as rationals (the Python code computes with
floating-point numbers; the constant 9.80665 is modelled exactly).  A 2-D
row-major array is modelled as the list of its rows; a Python `dict` is
modelled as an association list (Python dicts preserve insertion order and
have unique keys; the association-list operations below coincide with the
Python dict operations on every unique-key list).
-/

namespace AifsPipeline

/-- A regridded 1-D sample (the output of `ekr.interpolate`). -/
abbrev Sample := List ℚ

/-- A raw 2-D grid (`f.to_numpy()`), as the list of its rows. -/
abbrev Grid := List (List ℚ)

/-- A stacked per-field tensor (`np.stack(values)`): the list of its rows. -/
abbrev Tensor := List Sample

/-- The field mapping built by `get_open_data` and the `__main__` assembly:
a Python dict from field name to tensor, as an insertion-ordered
association list. -/
abbrev Fields := List (String × Tensor)

/-- Dict lookup (`d[k]` as an option): first entry with the given key. -/
def dictGet : List (String × α) → String → Option α
  | [], _ => none
  | (k', v) :: rest, k => if k' = k then some v else dictGet rest k

/-- Dict lookup with the `defaultdict(list)` default. -/
def dictGetD (d : List (String × List α)) (k : String) : List α :=
  (dictGet d k).getD []

/-- Dict assignment `d[k] = v`: overwrite in place if the key is present,
otherwise append the new entry at the end (Python insertion order). -/
def dictSet : List (String × α) → String → α → List (String × α)
  | [], k, v => [(k, v)]
  | (k', v') :: rest, k, v =>
      if k' = k then (k, v) :: rest else (k', v') :: dictSet rest k v

/-- Key removal, the dict part of `d.pop(k)`. -/
def dictRemove : List (String × α) → String → List (String × α)
  | [], _ => []
  | (k', v') :: rest, k =>
      if k' = k then dictRemove rest k else (k', v') :: dictRemove rest k

/-- `defaultdict(list)` append: `fields[k].append(v)` creates the entry
`(k, [v])` at the end when `k` is absent. -/
def appendField : List (String × List α) → String → α → List (String × List α)
  | [], k, v => [(k, [v])]
  | (k', vs) :: rest, k, v =>
      if k' = k then (k', vs ++ [v]) :: rest else (k', vs) :: appendField rest k v

/-- `d.update(other)`: assign every entry of `other` into `d` in order. -/
def dictUpdate (d other : List (String × α)) : List (String × α) :=
  other.foldl (fun acc p => dictSet acc p.1 p.2) d

/-- The keys of a dict, in insertion order. -/
def dictKeys (d : List (String × α)) : List String :=
  d.map Prod.fst

/-! ## The fetcher `get_open_data` -/

/-- One raw field record returned by the open-data request
(`earthkit` `GribField`): its `param` and `levelist` metadata and its
numeric grid. -/
structure GribField where
  param : String
  levelist : Nat
  values : Grid

/-- The external archive: `ekd.from_source("ecmwf-open-data", date=d,
param=p, levelist=l)` as a fixed function from the query parameters to the
returned field sequence.  Dates are modelled as integer hours. -/
abbrev Archive := Int → List String → List Nat → List GribField

/-- The shape test `f.to_numpy().shape == (721, 1440)`: 721 rows, every row
of length 1440 (a numpy array is rectangular, so its shape constrains every
row). -/
def goodShape (g : Grid) : Bool :=
  g.length = 721 && g.all (fun row => row.length = 1440)

/-- `np.roll(a, -a_cols // 2, axis=1)`: circularly shift every row left by
half the column count. -/
def rollHalf (g : Grid) : Grid :=
  let k := (g.head?.getD []).length / 2
  g.map (fun row => row.drop k ++ row.take k)

/-- The key under which a returned field is stored:
`f"{param}_{levelist}" if levelist else param` — the bare variable code
when the *requested* level list is empty, else `param_level`. -/
def fieldKey (levelist : List Nat) (f : GribField) : String :=
  if levelist.isEmpty then f.param else f.param ++ "_" ++ toString f.levelist

/-- Processing of one returned field inside `get_open_data`'s loop: assert
the shape (`none` models the uncaught `AssertionError`), circularly shift
the columns, regrid (the external pure `ekr.interpolate`, abstracted as
`regrid`), and append under the field's key. -/
def processField (regrid : Grid → Sample) (levelist : List Nat)
    (acc : List (String × List Sample)) (f : GribField) :
    Option (List (String × List Sample)) :=
  if goodShape f.values then
    some (appendField acc (fieldKey levelist f) (regrid (rollHalf f.values)))
  else
    none

/-- The final stacking loop: `fields[param] = np.stack(values)`.  Stacking a
list of equal-length 1-D samples yields the 2-D array whose rows are those
samples, which in this embedding is the list itself. -/
def np_stack (samples : List Sample) : Tensor := samples

/-- The stacking loop `for param, values in fields.items(): fields[param] =
np.stack(values)`: replace every value by its stack, touching no key. -/
def stackFields (acc : List (String × List Sample)) : Fields :=
  acc.map (fun p => (p.1, np_stack p.2))

/-- `get_open_data(param, levelist)`: for each of the two dates `DATE - 6h`
and `DATE` (in that order), process every field returned by the archive,
then stack each per-key sample list.  `none` models an uncaught
`AssertionError`. -/
def get_open_data (archive : Archive) (regrid : Grid → Sample) (DATE : Int)
    (param : List String) (levelist : List Nat := []) : Option Fields := do
  let acc ← [DATE - 6, DATE].foldlM
    (fun acc d => (archive d param levelist).foldlM (processField regrid levelist) acc)
    []
  return stackFields acc

/-! ## The `__main__` assembly steps -/

/-- Surface parameter list `PARAM_SFC`. -/
def PARAM_SFC : List String :=
  ["10u", "10v", "2d", "2t", "msl", "skt", "sp", "tcw", "lsm", "z", "slor", "sdor"]

/-- Soil parameter list `PARAM_SOIL`. -/
def PARAM_SOIL : List String := ["vsw", "sot"]

/-- Pressure-level parameter list `PARAM_PL`. -/
def PARAM_PL : List String := ["gh", "t", "u", "v", "w", "q"]

/-- Pressure level list `LEVELS`. -/
def LEVELS : List Nat := [1000, 925, 850, 700, 600, 500, 400, 300, 250, 200, 150, 100, 50]

/-- Soil level list `SOIL_LEVELS`. -/
def SOIL_LEVELS : List Nat := [1, 2]

/-- The standard gravitational acceleration constant 9.80665. -/
def gravityConst : ℚ := 980665 / 100000

/-- The key `f"gh_{level}"`. -/
def ghKey (L : Nat) : String := "gh_" ++ toString L

/-- The key `f"z_{level}"`. -/
def zKey (L : Nat) : String := "z_" ++ toString L

/-- `gh * 9.80665`: elementwise scalar multiplication of a 2-D array. -/
def scaleTensor (c : ℚ) (t : Tensor) : Tensor :=
  t.map (fun row => row.map (fun x => x * c))

/-- The gh-to-z conversion loop:
`for level in LEVELS: gh = fields.pop(f"gh_{level}"); fields[f"z_{level}"] = gh * 9.80665`.
`none` models the uncaught `KeyError` from `pop` on a missing key. -/
def convertGhToZ : List Nat → Fields → Option Fields
  | [], fields => some fields
  | L :: rest, fields =>
      match dictGet fields (ghKey L) with
      | none => none
      | some gh =>
          convertGhToZ rest
            (dictSet (dictRemove fields (ghKey L)) (zKey L) (scaleTensor gravityConst gh))

/-- The fixed soil renaming `mapping`; `none` models the `KeyError` raised
by `mapping[k]` on any key outside the four. -/
def soilMapping (k : String) : Option String :=
  if k = "sot_1" then some "stl1"
  else if k = "sot_2" then some "stl2"
  else if k = "vsw_1" then some "swvl1"
  else if k = "vsw_2" then some "swvl2"
  else none

/-- The soil renaming loop: `for k, v in soil.items(): fields[mapping[k]] = v`. -/
def renameSoil (soil fields : Fields) : Option Fields :=
  soil.foldlM (fun acc p => (soilMapping p.1).map (fun k' => dictSet acc k' p.2)) fields

/-- `fix(lons)`: `np.where(lons > 180, lons - 360, lons)`, elementwise on
the 1-D longitude array. -/
def fix (lons : List ℚ) : List ℚ :=
  lons.map (fun x => if x > 180 then x - 360 else x)

/-! ## Concrete example data (for instantiating universally quantified
theorems at closed inputs) -/

/-- A concrete all-zero raw grid of the expected shape 721 × 1440. -/
def exGrid : Grid := List.replicate 721 (List.replicate 1440 0)

/-- A concrete raw grid of a wrong shape. -/
def badGrid : Grid := [[0]]

/-- A concrete surface field. -/
def exField : GribField := ⟨"2t", 0, exGrid⟩

/-- A second concrete surface field with distinct values. -/
def exField2 : GribField := ⟨"2t", 0, List.replicate 721 (List.replicate 1440 1)⟩

/-- A concrete field of a wrong shape. -/
def badField : GribField := ⟨"2t", 0, badGrid⟩

/-- A trivial concrete regridding function. -/
def exRegrid : Grid → Sample := fun g => [(g.headD []).headD 0]

/-! ## Helper lemmas: strings -/

theorem string_append_cancel_left {p s t : String} (h : p ++ s = p ++ t) : s = t := by
  have h2 := congrArg String.data h
  simp [String.data_append] at h2
  cases s; cases t; exact congrArg String.mk h2

theorem zKey_ne_ghKey (L L' : Nat) : zKey L ≠ ghKey L' := by
  intro h
  have h2 := congrArg String.data h
  simp [zKey, ghKey, String.data_append] at h2

theorem ghKey_eq_of_zKey_eq {L L' : Nat} (h : zKey L = zKey L') : ghKey L = ghKey L' := by
  have h2 : toString L = toString L' := string_append_cancel_left h
  simp [ghKey, h2]

/-! ## Helper lemmas: dict operations -/

theorem dictGet_set_self (d : List (String × α)) (k : String) (v : α) :
    dictGet (dictSet d k v) k = some v := by
  induction d with
  | nil => simp [dictSet, dictGet]
  | cons p rest ih =>
      by_cases h : p.1 = k
      · simp [dictSet, h, dictGet]
      · simp [dictSet, h, dictGet, ih]

theorem dictGet_set_ne (d : List (String × α)) (k : String) (v : α) {q : String}
    (h : q ≠ k) : dictGet (dictSet d k v) q = dictGet d q := by
  induction d with
  | nil => simp [dictSet, dictGet, Ne.symm h]
  | cons p rest ih =>
      by_cases hp : p.1 = k
      · simp [dictSet, dictGet, hp, Ne.symm h]
      · by_cases hq : p.1 = q
        · simp [dictSet, dictGet, hp, hq, h]
        · simp [dictSet, dictGet, hp, hq, ih]

theorem dictGet_remove_self (d : List (String × α)) (k : String) :
    dictGet (dictRemove d k) k = none := by
  induction d with
  | nil => simp [dictRemove, dictGet]
  | cons p rest ih =>
      by_cases h : p.1 = k
      · simp [dictRemove, h, ih]
      · simp [dictRemove, h, dictGet, ih]

theorem dictGet_remove_ne (d : List (String × α)) (k : String) {q : String}
    (h : q ≠ k) : dictGet (dictRemove d k) q = dictGet d q := by
  induction d with
  | nil => simp [dictRemove]
  | cons p rest ih =>
      by_cases hp : p.1 = k
      · simp [dictRemove, dictGet, hp, Ne.symm h, ih]
      · by_cases hq : p.1 = q
        · simp [dictRemove, dictGet, hp, hq, h]
        · simp [dictRemove, dictGet, hp, hq, ih]

theorem dictGet_appendField_self (d : List (String × List α)) (k : String) (v : α) :
    dictGet (appendField d k v) k = some (dictGetD d k ++ [v]) := by
  induction d with
  | nil => simp [appendField, dictGet, dictGetD]
  | cons p rest ih =>
      by_cases h : p.1 = k
      · simp [appendField, h, dictGet, dictGetD]
      · simp [appendField, h, dictGet, dictGetD, ih]

theorem dictGet_appendField_ne (d : List (String × List α)) (k : String) (v : α)
    {q : String} (h : q ≠ k) : dictGet (appendField d k v) q = dictGet d q := by
  induction d with
  | nil => simp [appendField, dictGet, Ne.symm h]
  | cons p rest ih =>
      by_cases hp : p.1 = k
      · simp [appendField, dictGet, hp, Ne.symm h]
      · by_cases hq : p.1 = q
        · simp [appendField, dictGet, hp, hq, h]
        · simp [appendField, dictGet, hp, hq, ih]

theorem mem_dictKeys_iff_isSome (d : List (String × α)) (k : String) :
    k ∈ dictKeys d ↔ (dictGet d k).isSome := by
  induction d with
  | nil => simp [dictKeys, dictGet]
  | cons p rest ih =>
      by_cases h : p.1 = k
      · simp [dictKeys, dictGet, h]
      · have hcons : dictKeys (p :: rest) = p.1 :: dictKeys rest := rfl
        rw [hcons, List.mem_cons, ih]
        simp [dictGet, h, Ne.symm h]

theorem dictGet_mapVal (g : β → γ) (d : List (String × β)) (k : String) :
    dictGet (d.map (fun p => (p.1, g p.2))) k = (dictGet d k).map g := by
  induction d with
  | nil => simp [dictGet]
  | cons p rest ih =>
      by_cases h : p.1 = k
      · simp [dictGet, h]
      · simp [dictGet, h, ih]

/-! ## Helper lemmas: the column shift -/

theorem rollRow_rollRow {row : List ℚ} (h : row.length = 1440) :
    ((row.drop 720 ++ row.take 720).drop 720 ++ (row.drop 720 ++ row.take 720).take 720)
      = row := by
  have hd : (row.drop 720).length = 720 := by simp [h]
  rw [List.drop_left' hd, List.take_left' hd, List.take_append_drop]

theorem rollHalf_eq_roll720 {g : Grid} (h721 : g.length = 721)
    (hrows : ∀ row ∈ g, row.length = 1440) :
    rollHalf g = g.map (fun row => row.drop 720 ++ row.take 720) := by
  cases g with
  | nil => simp at h721
  | cons r rest =>
      have hr : r.length = 1440 := hrows r (by simp)
      simp [rollHalf, hr]

theorem goodShape_of_shape {g : Grid} (h721 : g.length = 721)
    (hrows : ∀ row ∈ g, row.length = 1440) : goodShape g = true := by
  simp only [goodShape, Bool.and_eq_true, decide_eq_true_eq, List.all_eq_true]
  exact ⟨h721, fun row hr => by simp [hrows row hr]⟩

theorem shape_of_goodShape {g : Grid} (h : goodShape g = true) :
    g.length = 721 ∧ ∀ row ∈ g, row.length = 1440 := by
  simp only [goodShape, Bool.and_eq_true, decide_eq_true_eq, List.all_eq_true] at h
  exact ⟨h.1, fun row hr => by have := h.2 row hr; simpa using this⟩

theorem exGrid_length : exGrid.length = 721 :=
  List.length_replicate 721 (List.replicate 1440 0)

theorem exGrid_rows : ∀ row ∈ exGrid, row.length = 1440 := by
  intro row h
  rw [List.eq_of_mem_replicate h]
  exact List.length_replicate 1440 0

/-! ## Helper lemmas: the fetcher loops -/

theorem foldlM_processField_isSome (regrid : Grid → Sample) (levelist : List Nat)
    (fs : List GribField) (acc : List (String × List Sample)) :
    (fs.foldlM (processField regrid levelist) acc).isSome ↔
      ∀ f ∈ fs, goodShape f.values = true := by
  induction fs generalizing acc with
  | nil => simp
  | cons f fs ih =>
      by_cases h : goodShape f.values = true
      · simp [List.foldlM_cons, processField, h, ih]
      · simp [List.foldlM_cons, processField, h]

theorem foldlM_processField_eq (regrid : Grid → Sample) (levelist : List Nat)
    (fs : List GribField) (acc : List (String × List Sample))
    (h : ∀ f ∈ fs, goodShape f.values = true) :
    fs.foldlM (processField regrid levelist) acc =
      some (fs.foldl
        (fun a f => appendField a (fieldKey levelist f) (regrid (rollHalf f.values))) acc) := by
  induction fs generalizing acc with
  | nil => simp
  | cons f fs ih =>
      have hf := h f (by simp)
      simp [List.foldlM_cons, processField, hf,
        ih _ (fun g hg => h g (by simp [hg]))]

theorem dictKeys_stackFields (acc : List (String × List Sample)) :
    dictKeys (stackFields acc) = dictKeys acc := by
  simp [stackFields, dictKeys]

theorem dictGet_stackFields (acc : List (String × List Sample)) (k : String) :
    dictGet (stackFields acc) k = (dictGet acc k).map np_stack :=
  dictGet_mapVal np_stack acc k

theorem dictGet_eq_some_dictGetD {d : List (String × List α)} {n : String}
    (h : (dictGet d n).isSome) : dictGet d n = some (dictGetD d n) := by
  cases hd : dictGet d n with
  | none => rw [hd] at h; simp at h
  | some v => simp [dictGetD, hd]

theorem dictGetD_appendField_self (d : List (String × List α)) (k : String) (v : α) :
    dictGetD (appendField d k v) k = dictGetD d k ++ [v] := by
  simp [dictGetD, dictGet_appendField_self]

theorem dictGetD_appendField_ne (d : List (String × List α)) (k : String) (v : α)
    {q : String} (h : q ≠ k) : dictGetD (appendField d k v) q = dictGetD d q := by
  simp [dictGetD, dictGet_appendField_ne d k v h]

theorem dictGetD_foldl_appendField (key : GribField → String) (val : GribField → Sample)
    (fs : List GribField) (acc : List (String × List Sample)) (n : String) :
    dictGetD (fs.foldl (fun a f => appendField a (key f) (val f)) acc) n =
      dictGetD acc n ++ (fs.filter (fun f => key f == n)).map val := by
  induction fs generalizing acc with
  | nil => simp
  | cons f fs ih =>
      rw [List.foldl_cons, ih]
      by_cases h : key f = n
      · rw [List.filter_cons_of_pos (by simp [h]), List.map_cons, h,
          dictGetD_appendField_self]
        simp
      · rw [List.filter_cons_of_neg (by simp [h]),
          dictGetD_appendField_ne _ _ _ (fun hh => h hh.symm)]

theorem mem_dictKeys_appendField (d : List (String × List α)) (k : String) (v : α)
    (q : String) : q ∈ dictKeys (appendField d k v) ↔ q ∈ dictKeys d ∨ q = k := by
  by_cases h : q = k
  · subst h
    simp [mem_dictKeys_iff_isSome, dictGet_appendField_self]
  · simp [mem_dictKeys_iff_isSome, dictGet_appendField_ne d k v h, h]

theorem mem_dictKeys_foldl_appendField (key : GribField → String) (val : GribField → Sample)
    (fs : List GribField) (acc : List (String × List Sample)) (n : String) :
    n ∈ dictKeys (fs.foldl (fun a f => appendField a (key f) (val f)) acc) ↔
      n ∈ dictKeys acc ∨ ∃ f ∈ fs, key f = n := by
  induction fs generalizing acc with
  | nil => simp
  | cons f fs ih =>
      rw [List.foldl_cons, ih, mem_dictKeys_appendField]
      constructor
      · rintro (h | h)
        · rcases h with h | h
          · exact Or.inl h
          · exact Or.inr ⟨f, by simp, h.symm⟩
        · rcases h with ⟨g, hg, hgn⟩
          exact Or.inr ⟨g, by simp [hg], hgn⟩
      · rintro (h | ⟨g, hg, hgn⟩)
        · exact Or.inl (Or.inl h)
        · rcases List.mem_cons.mp hg with rfl | hg
          · exact Or.inl (Or.inr hgn.symm)
          · exact Or.inr ⟨g, hg, hgn⟩

theorem goodShape_replicate (c : ℚ) :
    goodShape (List.replicate 721 (List.replicate 1440 c)) = true :=
  goodShape_of_shape (List.length_replicate _ _)
    (fun row h => by rw [List.eq_of_mem_replicate h]; exact List.length_replicate _ _)

theorem get_open_data_eq (archive : Archive) (regrid : Grid → Sample) (DATE : Int)
    (param : List String) (levelist : List Nat)
    (h : ∀ d ∈ [DATE - 6, DATE], ∀ f ∈ archive d param levelist,
      goodShape f.values = true) :
    get_open_data archive regrid DATE param levelist =
      some (stackFields ((archive DATE param levelist).foldl
        (fun a f => appendField a (fieldKey levelist f) (regrid (rollHalf f.values)))
        ((archive (DATE - 6) param levelist).foldl
          (fun a f => appendField a (fieldKey levelist f) (regrid (rollHalf f.values)))
          []))) := by
  have e1 := foldlM_processField_eq regrid levelist (archive (DATE - 6) param levelist) []
    (h _ (by simp))
  have e2 := foldlM_processField_eq regrid levelist (archive DATE param levelist)
    ((archive (DATE - 6) param levelist).foldl
      (fun a f => appendField a (fieldKey levelist f) (regrid (rollHalf f.values))) [])
    (h _ (by simp))
  simp [get_open_data, List.foldlM_cons, List.foldlM_nil, e1, e2]

theorem get_open_data_isSome_iff (archive : Archive) (regrid : Grid → Sample)
    (DATE : Int) (param : List String) (levelist : List Nat) :
    (get_open_data archive regrid DATE param levelist).isSome ↔
      ((∀ f ∈ archive (DATE - 6) param levelist, goodShape f.values = true) ∧
       (∀ f ∈ archive DATE param levelist, goodShape f.values = true)) := by
  by_cases h1 : ∀ f ∈ archive (DATE - 6) param levelist, goodShape f.values = true
  · have e1 := foldlM_processField_eq regrid levelist (archive (DATE - 6) param levelist)
      [] h1
    by_cases h2 : ∀ f ∈ archive DATE param levelist, goodShape f.values = true
    · have e2 := foldlM_processField_eq regrid levelist (archive DATE param levelist)
        ((archive (DATE - 6) param levelist).foldl
          (fun a f => appendField a (fieldKey levelist f) (regrid (rollHalf f.values))) [])
        h2
      simp only [get_open_data, List.foldlM_cons, List.foldlM_nil, e1, e2,
        Option.pure_def, Option.bind_eq_bind, Option.some_bind, Option.isSome_some,
        true_iff]
      exact ⟨h1, h2⟩
    · have e2 : (archive DATE param levelist).foldlM (processField regrid levelist)
        ((archive (DATE - 6) param levelist).foldl
          (fun a f => appendField a (fieldKey levelist f) (regrid (rollHalf f.values))) [])
          = none := by
        rw [← Option.not_isSome_iff_eq_none, foldlM_processField_isSome]
        exact h2
      simp [get_open_data, List.foldlM_cons, List.foldlM_nil, e1, e2, h1, h2]
  · have e1 : (archive (DATE - 6) param levelist).foldlM (processField regrid levelist)
      [] = none := by
      rw [← Option.not_isSome_iff_eq_none, foldlM_processField_isSome]
      exact h1
    simp [get_open_data, List.foldlM_cons, List.foldlM_nil, e1, h1]

/-! ## Helper lemmas: the gh-to-z conversion loop -/

theorem convertGhToZ_master (levels : List Nat) (fields : Fields)
    (hnd : (levels.map ghKey).Nodup)
    (hpres : ∀ L ∈ levels, (dictGet fields (ghKey L)).isSome) :
    ∃ out, convertGhToZ levels fields = some out ∧
      (∀ L ∈ levels, dictGet out (zKey L) =
        (dictGet fields (ghKey L)).map (scaleTensor gravityConst)) ∧
      (∀ L ∈ levels, dictGet out (ghKey L) = none) ∧
      (∀ k : String, k ∉ levels.map ghKey → k ∉ levels.map zKey →
        dictGet out k = dictGet fields k) := by
  induction levels generalizing fields with
  | nil => exact ⟨fields, rfl, by simp, by simp, fun k _ _ => rfl⟩
  | cons L rest ih =>
      obtain ⟨gh, hgh⟩ := Option.isSome_iff_exists.mp (hpres L (by simp))
      have hndr : (rest.map ghKey).Nodup := by
        rw [List.map_cons] at hnd
        exact (List.nodup_cons.mp hnd).2
      have hhead : ghKey L ∉ rest.map ghKey := by
        rw [List.map_cons] at hnd
        exact (List.nodup_cons.mp hnd).1
      have hframe1 : ∀ L'' ∈ rest,
          dictGet (dictSet (dictRemove fields (ghKey L)) (zKey L)
            (scaleTensor gravityConst gh)) (ghKey L'') = dictGet fields (ghKey L'') := by
        intro L'' hL
        have hne1 : ghKey L'' ≠ zKey L := Ne.symm (zKey_ne_ghKey L L'')
        have hne2 : ghKey L'' ≠ ghKey L := by
          intro he
          exact hhead (he ▸ List.mem_map_of_mem ghKey hL)
        rw [dictGet_set_ne _ _ _ hne1, dictGet_remove_ne _ _ hne2]
      obtain ⟨out, hconv, hz, hghnone, hframe⟩ :=
        ih (dictSet (dictRemove fields (ghKey L)) (zKey L) (scaleTensor gravityConst gh))
          hndr
          (fun L'' hL => by rw [hframe1 L'' hL]; exact hpres L'' (by simp [hL]))
      have hzL_notgh : zKey L ∉ rest.map ghKey := by
        intro hc
        rcases List.mem_map.mp hc with ⟨L'', _, hk⟩
        exact zKey_ne_ghKey L L'' hk.symm
      have hzL_notz : zKey L ∉ rest.map zKey := by
        intro hc
        rcases List.mem_map.mp hc with ⟨L'', hL'', hk⟩
        exact hhead (ghKey_eq_of_zKey_eq hk.symm ▸ List.mem_map_of_mem ghKey hL'')
      have hghL_notz : ghKey L ∉ rest.map zKey := by
        intro hc
        rcases List.mem_map.mp hc with ⟨L'', _, hk⟩
        exact zKey_ne_ghKey L'' L hk
      refine ⟨out, by simp [convertGhToZ, hgh, hconv], ?_, ?_, ?_⟩
      · intro L' hL'
        rcases List.mem_cons.mp hL' with rfl | hL'
        · rw [hframe _ hzL_notgh hzL_notz, dictGet_set_self, hgh]
          rfl
        · rw [hz L' hL', hframe1 L' hL']
      · intro L' hL'
        rcases List.mem_cons.mp hL' with rfl | hL'
        · rw [hframe _ hhead hghL_notz,
            dictGet_set_ne _ _ _ (Ne.symm (zKey_ne_ghKey L' L')),
            dictGet_remove_self]
        · exact hghnone L' hL'
      · intro k hk1 hk2
        rw [List.map_cons] at hk1 hk2
        have hk1h : k ≠ ghKey L := fun he => hk1 (he ▸ List.mem_cons_self _ _)
        have hk1r : k ∉ rest.map ghKey := fun hc => hk1 (List.mem_cons_of_mem _ hc)
        have hk2h : k ≠ zKey L := fun he => hk2 (he ▸ List.mem_cons_self _ _)
        have hk2r : k ∉ rest.map zKey := fun hc => hk2 (List.mem_cons_of_mem _ hc)
        rw [hframe k hk1r hk2r, dictGet_set_ne _ _ _ hk2h, dictGet_remove_ne _ _ hk1h]

/-! ## Helper lemmas: the soil renaming loop -/

theorem renameSoil_cons_inv {p : String × Tensor} {rest : Fields} {fields out : Fields}
    (h : renameSoil (p :: rest) fields = some out) :
    ∃ k', soilMapping p.1 = some k' ∧
      renameSoil rest (dictSet fields k' p.2) = some out := by
  cases hm : soilMapping p.1 with
  | none =>
      rw [renameSoil, List.foldlM_cons, hm] at h
      simp at h
  | some k' =>
      rw [renameSoil, List.foldlM_cons, hm] at h
      simp only [Option.map_some', Option.some_bind] at h
      exact ⟨k', rfl, h⟩

theorem renameSoil_isSome (soil : Fields) (fields : Fields)
    (hall : ∀ p ∈ soil, (soilMapping p.1).isSome) :
    (renameSoil soil fields).isSome := by
  induction soil generalizing fields with
  | nil => rfl
  | cons p rest ih =>
      obtain ⟨k', hk'⟩ := Option.isSome_iff_exists.mp (hall p (by simp))
      rw [renameSoil, List.foldlM_cons, hk']
      simp only [Option.map_some', Option.some_bind]
      exact ih _ (fun q hq => hall q (by simp [hq]))

theorem renameSoil_frame {soil : Fields} {fields out : Fields}
    (hout : renameSoil soil fields = some out) (n : String)
    (hn : ∀ p ∈ soil, soilMapping p.1 ≠ some n) :
    dictGet out n = dictGet fields n := by
  induction soil generalizing fields with
  | nil =>
      rw [show renameSoil [] fields = some fields from rfl] at hout
      rw [← Option.some.inj hout]
  | cons p rest ih =>
      obtain ⟨k', hk', hrest⟩ := renameSoil_cons_inv hout
      have hkn : n ≠ k' := by
        intro he
        exact hn p (by simp) (he ▸ hk')
      rw [ih hrest (fun q hq => hn q (by simp [hq])), dictGet_set_ne _ _ _ hkn]

theorem renameSoil_last {s2 : Fields} {k : String} {v : Tensor} {n : String}
    (hk : soilMapping k = some n)
    (hs2 : ∀ p ∈ s2, soilMapping p.1 ≠ some n) :
    ∀ (s1 : List (String × Tensor)) (fields out : Fields),
      renameSoil (s1 ++ (k, v) :: s2) fields = some out →
      dictGet out n = some v := by
  intro s1
  induction s1 with
  | nil =>
      intro fields out hout
      rw [List.nil_append] at hout
      obtain ⟨k', hk', hrest⟩ := renameSoil_cons_inv hout
      rw [hk] at hk'
      rw [renameSoil_frame hrest n hs2, ← Option.some.inj hk', dictGet_set_self]
  | cons q s1 ih =>
      intro fields out hout
      rw [List.cons_append] at hout
      obtain ⟨k', _, hrest⟩ := renameSoil_cons_inv hout
      exact ih _ _ hrest

theorem soilMapping_preimage {q n : String} (h : soilMapping q = some n) :
    (q = "sot_1" ∧ n = "stl1") ∨ (q = "sot_2" ∧ n = "stl2") ∨
    (q = "vsw_1" ∧ n = "swvl1") ∨ (q = "vsw_2" ∧ n = "swvl2") := by
  by_cases h1 : q = "sot_1"
  · rw [soilMapping, if_pos h1] at h
    exact Or.inl ⟨h1, (Option.some.inj h).symm⟩
  · rw [soilMapping, if_neg h1] at h
    by_cases h2 : q = "sot_2"
    · rw [if_pos h2] at h
      exact Or.inr (Or.inl ⟨h2, (Option.some.inj h).symm⟩)
    · rw [if_neg h2] at h
      by_cases h3 : q = "vsw_1"
      · rw [if_pos h3] at h
        exact Or.inr (Or.inr (Or.inl ⟨h3, (Option.some.inj h).symm⟩))
      · rw [if_neg h3] at h
        by_cases h4 : q = "vsw_2"
        · rw [if_pos h4] at h
          exact Or.inr (Or.inr (Or.inr ⟨h4, (Option.some.inj h).symm⟩))
        · rw [if_neg h4] at h
          simp at h

theorem dictGet_of_mem_nodup {d : List (String × α)} {k : String} {v : α}
    (hnd : (d.map Prod.fst).Nodup) (h : (k, v) ∈ d) : dictGet d k = some v := by
  induction d with
  | nil => simp at h
  | cons p rest ih =>
      rcases List.mem_cons.mp h with he | h
      · rw [← he]
        simp [dictGet]
      · have hk : p.1 ≠ k := by
          intro heq
          rw [List.map_cons, List.nodup_cons] at hnd
          exact hnd.1 (heq ▸ List.mem_map_of_mem Prod.fst h)
        rw [List.map_cons, List.nodup_cons] at hnd
        simp [dictGet, hk, ih hnd.2 h]

theorem key_not_in_suffix {s1 s2 : List (String × Tensor)} {k : String} {v : Tensor}
    (hnd : (((s1 ++ (k, v) :: s2)).map Prod.fst).Nodup) :
    ∀ p ∈ s2, p.1 ≠ k := by
  intro p hp he
  rw [List.map_append] at hnd
  have h1 : (((k, v) :: s2).map Prod.fst).Nodup :=
    List.Nodup.sublist (List.sublist_append_right _ _) hnd
  rw [List.map_cons, List.nodup_cons] at h1
  have hmem : p.1 ∈ s2.map Prod.fst := List.mem_map_of_mem Prod.fst hp
  rw [he] at hmem
  exact h1.1 hmem

theorem renameSoil_pair {soil fields : Fields} {orig renamed : String}
    (hnd : (soil.map Prod.fst).Nodup)
    (hmap : soilMapping orig = some renamed)
    (hpre : ∀ q : String, soilMapping q = some renamed → q = orig)
    (hmem : orig ∈ soil.map Prod.fst)
    {out : Fields} (hout : renameSoil soil fields = some out) :
    dictGet out renamed = dictGet soil orig := by
  rcases List.mem_map.mp hmem with ⟨p, hp, hfst⟩
  obtain ⟨s1, s2, hsplit⟩ := List.append_of_mem hp
  have hpk : p = (orig, p.2) := by
    rw [← hfst]
  have hs2 : ∀ q ∈ s2, soilMapping q.1 ≠ some renamed := by
    intro q hq hc
    have hq1 := hpre q.1 hc
    have := key_not_in_suffix (hsplit ▸ hnd) q hq
    rw [hpk] at this
    exact this hq1
  have hlast := renameSoil_last (hfst ▸ hmap) hs2 s1 fields out (by rw [← hsplit]; exact hout)
  rw [hlast]
  exact (dictGet_of_mem_nodup hnd (hpk ▸ hp)).symm

theorem renameSoil_not_target {soil fields : Fields} (n : String)
    (hnone : ∀ q m : String, soilMapping q = some m → m ≠ n)
    (hfresh : dictGet fields n = none)
    {out : Fields} (hout : renameSoil soil fields = some out) :
    dictGet out n = none := by
  rw [renameSoil_frame hout n (fun p _ hc => hnone p.1 n hc rfl), hfresh]

theorem renameSoil_fails {soil fields : Fields} {p : String × Tensor}
    (hp : p ∈ soil) (hm : soilMapping p.1 = none) :
    renameSoil soil fields = none := by
  induction soil generalizing fields with
  | nil => simp at hp
  | cons q rest ih =>
      rcases List.mem_cons.mp hp with rfl | hp
      · rw [renameSoil, List.foldlM_cons, hm]
        rfl
      · cases hq : soilMapping q.1 with
        | none =>
            rw [renameSoil, List.foldlM_cons, hq]
            rfl
        | some k' =>
            rw [renameSoil, List.foldlM_cons, hq]
            simp only [Option.map_some', Option.some_bind]
            exact ih hp

/-! ## Claim theorems -/

/-- C6: for a shape-valid raw field, the processing step stores under the
field's key exactly `regrid` applied to the circular column shift of the
raw values by half the column count (720 of 1440 columns) — the shift is
the only transformation between the shape check and the regridding call. -/
theorem processField_shift_then_regrid (regrid : Grid → Sample) (levelist : List Nat)
    (acc : List (String × List Sample)) (f : GribField)
    (h721 : f.values.length = 721) (hrows : ∀ row ∈ f.values, row.length = 1440) :
    processField regrid levelist acc f =
      some (appendField acc (fieldKey levelist f)
        (regrid (f.values.map (fun row => row.drop 720 ++ row.take 720)))) := by
  rw [processField, if_pos (goodShape_of_shape h721 hrows),
    rollHalf_eq_roll720 h721 hrows]

theorem processField_shift_then_regrid_witness :
    processField exRegrid [] [] exField =
      some (appendField [] (fieldKey [] exField)
        (exRegrid (exField.values.map (fun row => row.drop 720 ++ row.take 720)))) :=
  processField_shift_then_regrid exRegrid [] [] exField exGrid_length exGrid_rows

/-- C7: on any array of shape 721 × 1440, the longitude re-centering column
shift is an involution — applying it twice returns the original array, so
under an identity regrid mapping the shift-then-regrid step composed with
itself is the identity. -/
theorem rollHalf_involution (g : Grid) (h721 : g.length = 721)
    (hrows : ∀ row ∈ g, row.length = 1440) :
    rollHalf (rollHalf g) = g := by
  have h1 := rollHalf_eq_roll720 h721 hrows
  have hlen : (rollHalf g).length = 721 := by rw [h1]; simpa using h721
  have hr2 : ∀ row ∈ rollHalf g, row.length = 1440 := by
    intro row hrow
    rw [h1] at hrow
    rcases List.mem_map.mp hrow with ⟨r, hr, rfl⟩
    have hlr := hrows r hr
    simp [hlr]
  rw [rollHalf_eq_roll720 hlen hr2, h1, List.map_map]
  have hcongr : g.map ((fun row : List ℚ => row.drop 720 ++ row.take 720) ∘
      (fun row : List ℚ => row.drop 720 ++ row.take 720)) = g.map id := by
    apply List.map_congr_left
    intro r hr
    simpa using rollRow_rollRow (hrows r hr)
  rw [hcongr, List.map_id]

theorem rollHalf_involution_witness : rollHalf (rollHalf exGrid) = exGrid :=
  rollHalf_involution exGrid exGrid_length exGrid_rows

/-- C8: the fetch-and-assemble computation is deterministic — for a fixed
archive (the external data source modelled as a fixed function from query
parameters to field sequences), a fixed regridding function and a fixed
reference time, two runs on the same variable and level lists produce
identical output mappings. -/
theorem get_open_data_deterministic (a₁ a₂ : Archive) (r₁ r₂ : Grid → Sample)
    (D₁ D₂ : Int) (p₁ p₂ : List String) (l₁ l₂ : List Nat)
    (ha : a₁ = a₂) (hr : r₁ = r₂) (hD : D₁ = D₂) (hp : p₁ = p₂) (hl : l₁ = l₂) :
    get_open_data a₁ r₁ D₁ p₁ l₁ = get_open_data a₂ r₂ D₂ p₂ l₂ := by
  rw [ha, hr, hD, hp, hl]

theorem get_open_data_deterministic_witness :
    get_open_data (fun _ _ _ => [exField]) exRegrid 6 ["2t"] [] =
      get_open_data (fun _ _ _ => [exField]) exRegrid 6 ["2t"] [] :=
  get_open_data_deterministic _ _ _ _ _ _ _ _ _ _ rfl rfl rfl rfl rfl

/-- C9: the stacking step at the end of the fetcher only replaces each
per-field sample list by its stack; the key set is exactly the same before
and after, and every value is the stack of the former value. -/
theorem stackFields_frame (acc : List (String × List Sample)) :
    dictKeys (stackFields acc) = dictKeys acc ∧
    ∀ k, dictGet (stackFields acc) k = (dictGet acc k).map np_stack := by
  constructor
  · simp [stackFields, dictKeys]
  · intro k
    exact dictGet_mapVal np_stack acc k

/-- C10: `fix` maps, elementwise, every entry strictly greater than 180 to
that entry minus 360 and leaves every other entry unchanged; for every
input array with entries in `[0, 360)`, every output entry lies in
`[-180, 180]`. -/
theorem fix_spec (lons : List ℚ) :
    (fix lons).length = lons.length ∧
    (∀ (i : Nat) (h1 : i < (fix lons).length) (h2 : i < lons.length),
      (fix lons).get ⟨i, h1⟩ =
        if 180 < lons.get ⟨i, h2⟩ then lons.get ⟨i, h2⟩ - 360 else lons.get ⟨i, h2⟩) ∧
    ((∀ x ∈ lons, 0 ≤ x ∧ x < 360) → ∀ y ∈ fix lons, -180 ≤ y ∧ y ≤ 180) := by
  refine ⟨by simp [fix], ?_, ?_⟩
  · intro i h1 h2
    simp [fix, List.get_eq_getElem]
  · intro hin y hy
    rcases List.mem_map.mp hy with ⟨x, hx, rfl⟩
    rcases hin x hx with ⟨hx0, hx360⟩
    by_cases h : (180:ℚ) < x
    · rw [if_pos h]
      constructor <;> linarith
    · rw [if_neg h]
      constructor <;> linarith

/-- C1: the gh-to-z conversion loop removes the key `gh_L` for every
requested pressure level `L` and inserts `z_L` with values equal to the
fetched geopotential-height values multiplied by exactly 9.80665; when the
`gh_*` keys of the input are exactly those of the requested levels, no
`gh_*` key remains afterwards. -/
theorem convertGhToZ_spec (levels : List Nat) (fields : Fields)
    (hnd : (levels.map ghKey).Nodup)
    (hpres : ∀ L ∈ levels, (dictGet fields (ghKey L)).isSome)
    (hcover : ∀ L' : Nat, (dictGet fields (ghKey L')).isSome →
      ghKey L' ∈ levels.map ghKey) :
    ∃ out, convertGhToZ levels fields = some out ∧
      (∀ L ∈ levels, dictGet out (zKey L) =
        (dictGet fields (ghKey L)).map (scaleTensor gravityConst)) ∧
      (∀ L' : Nat, dictGet out (ghKey L') = none) := by
  obtain ⟨out, hconv, hz, hghnone, hframe⟩ := convertGhToZ_master levels fields hnd hpres
  refine ⟨out, hconv, hz, ?_⟩
  intro L'
  by_cases hmem : ghKey L' ∈ levels.map ghKey
  · rcases List.mem_map.mp hmem with ⟨L, hL, hLk⟩
    exact hLk ▸ hghnone L hL
  · have hzn : ghKey L' ∉ levels.map zKey := by
      intro hc
      rcases List.mem_map.mp hc with ⟨L, _, hLk⟩
      exact zKey_ne_ghKey L L' hLk
    rw [hframe _ hmem hzn]
    cases hd : dictGet fields (ghKey L') with
    | none => rfl
    | some v => exact absurd (hcover L' (by simp [hd])) hmem

theorem convertGhToZ_spec_witness :
    (convertGhToZ [500] [("gh_500", [[1]])]).isSome := by
  obtain ⟨out, hconv, _, _⟩ := convertGhToZ_spec [500] [("gh_500", [[1]])]
    (by simp)
    (by
      intro L hL
      rcases List.mem_singleton.mp hL with rfl
      rw [show ghKey 500 = "gh_500" from rfl]
      rfl)
    (by
      intro L' h
      rw [show dictGet [("gh_500", ([[1]] : Tensor))] (ghKey L') =
        (if "gh_500" = ghKey L' then some ([[1]] : Tensor) else none) from rfl] at h
      by_cases hq : "gh_500" = ghKey L'
      · rw [List.map_singleton, ← hq, show ghKey 500 = "gh_500" from rfl]
        exact List.mem_singleton_self _
      · rw [if_neg hq] at h
        simp at h)
  rw [hconv]
  rfl

/-- C2: when the soil fetch result carries exactly the four fixed soil keys
(`sot_1`, `sot_2`, `vsw_1`, `vsw_2`), the renaming loop succeeds and the
final mapping contains each renamed key (`stl1`, `stl2`, `swvl1`, `swvl2`)
with the fetched tensor, and none of the original keys; and for any soil
fetch result containing a key outside the fixed four-key set, assembly
fails with an error (the mapping lookup raises) rather than silently
dropping the field. -/
theorem renameSoil_spec :
    (∀ soil fields : Fields,
      (soil.map Prod.fst).Nodup →
      (∀ k ∈ soil.map Prod.fst, k ∈ ["sot_1", "sot_2", "vsw_1", "vsw_2"]) →
      (∀ k ∈ ["sot_1", "sot_2", "vsw_1", "vsw_2"], k ∈ soil.map Prod.fst) →
      (∀ k ∈ ["sot_1", "sot_2", "vsw_1", "vsw_2"], dictGet fields k = none) →
      ∃ out, renameSoil soil fields = some out ∧
        dictGet out "stl1" = dictGet soil "sot_1" ∧
        dictGet out "stl2" = dictGet soil "sot_2" ∧
        dictGet out "swvl1" = dictGet soil "vsw_1" ∧
        dictGet out "swvl2" = dictGet soil "vsw_2" ∧
        (dictGet soil "sot_1").isSome ∧ (dictGet soil "sot_2").isSome ∧
        (dictGet soil "vsw_1").isSome ∧ (dictGet soil "vsw_2").isSome ∧
        dictGet out "sot_1" = none ∧ dictGet out "sot_2" = none ∧
        dictGet out "vsw_1" = none ∧ dictGet out "vsw_2" = none) ∧
    (∀ (soil fields : Fields) (p : String × Tensor), p ∈ soil →
      soilMapping p.1 = none → renameSoil soil fields = none) := by
  constructor
  · intro soil fields hnd hsub hsup hfresh
    have hall : ∀ p ∈ soil, (soilMapping p.1).isSome := by
      intro p hp
      have hm := hsub p.1 (List.mem_map_of_mem Prod.fst hp)
      have hfour : ∀ k ∈ (["sot_1", "sot_2", "vsw_1", "vsw_2"] : List String),
          (soilMapping k).isSome := by decide
      exact hfour p.1 hm
    obtain ⟨out, hout⟩ := Option.isSome_iff_exists.mp (renameSoil_isSome soil fields hall)
    have hsome : ∀ k ∈ (["sot_1", "sot_2", "vsw_1", "vsw_2"] : List String),
        (dictGet soil k).isSome := by
      intro k hk
      exact (mem_dictKeys_iff_isSome soil k).mp (hsup k hk)
    refine ⟨out, hout,
      renameSoil_pair hnd (by decide)
        (fun q hq => by rcases soilMapping_preimage hq with ⟨h, _⟩ | ⟨_, h⟩ | ⟨_, h⟩ | ⟨_, h⟩
                        exacts [h, absurd h (by decide), absurd h (by decide),
                          absurd h (by decide)])
        (hsup _ (by decide)) hout,
      renameSoil_pair hnd (by decide)
        (fun q hq => by rcases soilMapping_preimage hq with ⟨_, h⟩ | ⟨h, _⟩ | ⟨_, h⟩ | ⟨_, h⟩
                        exacts [absurd h (by decide), h, absurd h (by decide),
                          absurd h (by decide)])
        (hsup _ (by decide)) hout,
      renameSoil_pair hnd (by decide)
        (fun q hq => by rcases soilMapping_preimage hq with ⟨_, h⟩ | ⟨_, h⟩ | ⟨h, _⟩ | ⟨_, h⟩
                        exacts [absurd h (by decide), absurd h (by decide), h,
                          absurd h (by decide)])
        (hsup _ (by decide)) hout,
      renameSoil_pair hnd (by decide)
        (fun q hq => by rcases soilMapping_preimage hq with ⟨_, h⟩ | ⟨_, h⟩ | ⟨_, h⟩ | ⟨h, _⟩
                        exacts [absurd h (by decide), absurd h (by decide),
                          absurd h (by decide), h])
        (hsup _ (by decide)) hout,
      hsome _ (by decide), hsome _ (by decide), hsome _ (by decide), hsome _ (by decide),
      ?_, ?_, ?_, ?_⟩
    · refine renameSoil_not_target "sot_1" ?_ (hfresh _ (by decide)) hout
      intro q m hq
      rcases soilMapping_preimage hq with ⟨_, h⟩ | ⟨_, h⟩ | ⟨_, h⟩ | ⟨_, h⟩ <;>
        rw [h] <;> decide
    · refine renameSoil_not_target "sot_2" ?_ (hfresh _ (by decide)) hout
      intro q m hq
      rcases soilMapping_preimage hq with ⟨_, h⟩ | ⟨_, h⟩ | ⟨_, h⟩ | ⟨_, h⟩ <;>
        rw [h] <;> decide
    · refine renameSoil_not_target "vsw_1" ?_ (hfresh _ (by decide)) hout
      intro q m hq
      rcases soilMapping_preimage hq with ⟨_, h⟩ | ⟨_, h⟩ | ⟨_, h⟩ | ⟨_, h⟩ <;>
        rw [h] <;> decide
    · refine renameSoil_not_target "vsw_2" ?_ (hfresh _ (by decide)) hout
      intro q m hq
      rcases soilMapping_preimage hq with ⟨_, h⟩ | ⟨_, h⟩ | ⟨_, h⟩ | ⟨_, h⟩ <;>
        rw [h] <;> decide
  · intro soil fields p hp hm
    exact renameSoil_fails hp hm

theorem renameSoil_spec_witness :
    (renameSoil [("sot_1", [[1]]), ("sot_2", [[2]]), ("vsw_1", [[3]]), ("vsw_2", [[4]])]
      []).isSome ∧
    renameSoil [("bogus", [[5]])] [] = none := by
  constructor
  · obtain ⟨out, h1, _⟩ := renameSoil_spec.1
      [("sot_1", [[1]]), ("sot_2", [[2]]), ("vsw_1", [[3]]), ("vsw_2", [[4]])] []
      (by decide) (by decide) (by decide) (by decide)
    rw [h1]
    rfl
  · exact renameSoil_spec.2 [("bogus", [[5]])] [] ("bogus", [[5]])
      (List.mem_singleton_self _) (by decide)

/-- C3: when each of the two retrievals returns exactly one field keyed
`n`, the fetched tensor at `n` has exactly two rows, row 0 holding the
sample fetched for `DATE - 6h` and row 1 the sample for `DATE`, regardless
of where in each retrieval's result list the field occurs. -/
theorem get_open_data_chronological (archive : Archive) (regrid : Grid → Sample)
    (DATE : Int) (param : List String) (levelist : List Nat) (n : String)
    (f₁ f₂ : GribField)
    (hg : ∀ d ∈ [DATE - 6, DATE], ∀ f ∈ archive d param levelist,
      goodShape f.values = true)
    (h1 : (archive (DATE - 6) param levelist).filter
      (fun f => fieldKey levelist f == n) = [f₁])
    (h2 : (archive DATE param levelist).filter
      (fun f => fieldKey levelist f == n) = [f₂]) :
    ∃ out, get_open_data archive regrid DATE param levelist = some out ∧
      dictGet out n =
        some (np_stack [regrid (rollHalf f₁.values), regrid (rollHalf f₂.values)]) := by
  refine ⟨_, get_open_data_eq archive regrid DATE param levelist hg, ?_⟩
  rw [dictGet_stackFields]
  have hmem : n ∈ dictKeys ((archive DATE param levelist).foldl
      (fun a f => appendField a (fieldKey levelist f) (regrid (rollHalf f.values)))
      ((archive (DATE - 6) param levelist).foldl
        (fun a f => appendField a (fieldKey levelist f) (regrid (rollHalf f.values)))
        [])) := by
    rw [mem_dictKeys_foldl_appendField (fieldKey levelist)
      (fun f => regrid (rollHalf f.values))]
    right
    have hf2m : f₂ ∈ (archive DATE param levelist).filter
        (fun f => fieldKey levelist f == n) := by
      rw [h2]
      exact List.mem_singleton_self f₂
    rcases List.mem_filter.mp hf2m with ⟨hf2, hk⟩
    exact ⟨f₂, hf2, by simpa using hk⟩
  have hval : dictGetD ((archive DATE param levelist).foldl
      (fun a f => appendField a (fieldKey levelist f) (regrid (rollHalf f.values)))
      ((archive (DATE - 6) param levelist).foldl
        (fun a f => appendField a (fieldKey levelist f) (regrid (rollHalf f.values)))
        [])) n
      = [regrid (rollHalf f₁.values), regrid (rollHalf f₂.values)] := by
    rw [dictGetD_foldl_appendField (fieldKey levelist)
        (fun f => regrid (rollHalf f.values)),
      dictGetD_foldl_appendField (fieldKey levelist)
        (fun f => regrid (rollHalf f.values)), h1, h2]
    simp [dictGetD, dictGet]
  rw [dictGet_eq_some_dictGetD ((mem_dictKeys_iff_isSome _ _).mp hmem), hval]
  rfl

theorem get_open_data_chronological_witness :
    (get_open_data (fun d _ _ => if d = 0 then [exField] else [exField2])
      exRegrid 6 ["2t"] []).isSome := by
  obtain ⟨out, h1, _⟩ := get_open_data_chronological
    (fun d _ _ => if d = 0 then [exField] else [exField2])
    exRegrid 6 ["2t"] [] "2t" exField exField2
    (by
      intro d hd f hf
      rcases List.mem_cons.mp hd with rfl | hd
      · norm_num at hf
        rw [hf]
        exact goodShape_replicate 0
      · rcases List.mem_cons.mp hd with rfl | hd
        · norm_num at hf
          rw [hf]
          exact goodShape_replicate 1
        · simp at hd)
    (by norm_num [fieldKey, exField])
    (by norm_num [fieldKey, exField2])
  rw [h1]
  rfl

/-- C4: every field returned by the fetcher is keyed by its bare variable
code when the requested level list is empty, and by the string
`variable_level` when a non-empty level list was requested: every key of
the output has that form for some returned field, and every returned
field's key of that form is present in the output. -/
theorem get_open_data_key_forms (archive : Archive) (regrid : Grid → Sample)
    (DATE : Int) (param : List String) (levelist : List Nat) (out : Fields)
    (hout : get_open_data archive regrid DATE param levelist = some out) :
    (∀ k ∈ dictKeys out, ∃ d ∈ [DATE - 6, DATE], ∃ f ∈ archive d param levelist,
        k = if levelist.isEmpty then f.param
            else f.param ++ "_" ++ toString f.levelist) ∧
    (∀ d ∈ [DATE - 6, DATE], ∀ f ∈ archive d param levelist,
        (if levelist.isEmpty then f.param
         else f.param ++ "_" ++ toString f.levelist) ∈ dictKeys out) := by
  have hsome : (get_open_data archive regrid DATE param levelist).isSome := by
    rw [hout]; rfl
  rcases (get_open_data_isSome_iff archive regrid DATE param levelist).mp hsome with
    ⟨hg1, hg2⟩
  have hg : ∀ d ∈ [DATE - 6, DATE], ∀ f ∈ archive d param levelist,
      goodShape f.values = true := by
    intro d hd
    rcases List.mem_cons.mp hd with rfl | hd
    · exact hg1
    · rcases List.mem_cons.mp hd with rfl | hd
      · exact hg2
      · simp at hd
  rw [get_open_data_eq archive regrid DATE param levelist hg] at hout
  have hout2 := Option.some.inj hout
  subst hout2
  rw [dictKeys_stackFields]
  constructor
  · intro k hk
    rw [mem_dictKeys_foldl_appendField (fieldKey levelist)
      (fun f => regrid (rollHalf f.values))] at hk
    rcases hk with hk | ⟨f, hf, hkey⟩
    · rw [mem_dictKeys_foldl_appendField (fieldKey levelist)
        (fun f => regrid (rollHalf f.values))] at hk
      rcases hk with hk | ⟨f, hf, hkey⟩
      · simp [dictKeys] at hk
      · exact ⟨DATE - 6, by simp, f, hf, by rw [← hkey]; rfl⟩
    · exact ⟨DATE, by simp, f, hf, by rw [← hkey]; rfl⟩
  · intro d hd f hf
    rw [mem_dictKeys_foldl_appendField (fieldKey levelist)
      (fun f => regrid (rollHalf f.values))]
    rcases List.mem_cons.mp hd with rfl | hd
    · left
      rw [mem_dictKeys_foldl_appendField (fieldKey levelist)
        (fun f => regrid (rollHalf f.values))]
      exact Or.inr ⟨f, hf, rfl⟩
    · rcases List.mem_cons.mp hd with rfl | hd
      · exact Or.inr ⟨f, hf, rfl⟩
      · simp at hd

theorem get_open_data_key_forms_witness :
    (if ([] : List Nat).isEmpty then exField.param
     else exField.param ++ "_" ++ toString exField.levelist) ∈
      dictKeys [("2t",
        np_stack [exRegrid (rollHalf exField.values),
          exRegrid (rollHalf exField.values)])] :=
  (get_open_data_key_forms (fun _ _ _ => [exField]) exRegrid 6 ["2t"] []
    [("2t", np_stack [exRegrid (rollHalf exField.values),
      exRegrid (rollHalf exField.values)])]
    (by
      rw [get_open_data_eq (fun _ _ _ => [exField]) exRegrid 6 ["2t"] []
        (by
          intro d hd f hf
          rcases List.mem_singleton.mp hf with rfl
          exact goodShape_replicate 0)]
      simp [stackFields, appendField, fieldKey, exField, np_stack])).2
    (6 - 6) (by simp) exField (by simp)

/-- C5: the fetcher succeeds exactly when every raw field returned by the
two data-retrieval requests has grid shape (721, 1440); any shape mismatch
makes the whole pipeline abort (`none`, the uncaught `AssertionError`), and
under the precondition that every returned field is well-shaped the abort
branch is unreachable. -/
theorem get_open_data_shape_check (archive : Archive) (regrid : Grid → Sample)
    (DATE : Int) (param : List String) (levelist : List Nat) :
    (get_open_data archive regrid DATE param levelist).isSome ↔
      ∀ d ∈ [DATE - 6, DATE], ∀ f ∈ archive d param levelist,
        f.values.length = 721 ∧ ∀ row ∈ f.values, row.length = 1440 := by
  have hR : (∀ d ∈ [DATE - 6, DATE], ∀ f ∈ archive d param levelist,
      f.values.length = 721 ∧ ∀ row ∈ f.values, row.length = 1440) ↔
      ((∀ f ∈ archive (DATE - 6) param levelist, goodShape f.values = true) ∧
       (∀ f ∈ archive DATE param levelist, goodShape f.values = true)) := by
    constructor
    · intro h
      exact ⟨fun f hf => goodShape_of_shape (h _ (by simp) f hf).1 (h _ (by simp) f hf).2,
             fun f hf => goodShape_of_shape (h _ (by simp) f hf).1 (h _ (by simp) f hf).2⟩
    · rintro ⟨ha, hb⟩ d hd f hf
      rcases List.mem_cons.mp hd with rfl | hd
      · exact shape_of_goodShape (ha f hf)
      · rcases List.mem_cons.mp hd with rfl | hd
        · exact shape_of_goodShape (hb f hf)
        · simp at hd
  rw [hR]
  exact get_open_data_isSome_iff archive regrid DATE param levelist

theorem get_open_data_shape_check_witness :
    (get_open_data (fun _ _ _ => [exField]) exRegrid 6 ["2t"] []).isSome :=
  (get_open_data_shape_check (fun _ _ _ => [exField]) exRegrid 6 ["2t"] []).mpr
    (by
      intro d hd f hf
      rcases List.mem_singleton.mp hf with rfl
      exact ⟨exGrid_length, exGrid_rows⟩)

theorem fix_spec_witness :
    ((fix [(190:ℚ), 10]).get ⟨0, by simp [fix]⟩ =
      (if (180:ℚ) < (190:ℚ) then (190:ℚ) - 360 else (190:ℚ))) ∧
    (-180 ≤ (-170:ℚ) ∧ (-170:ℚ) ≤ 180) := by
  constructor
  · have h := (fix_spec [190, 10]).2.1 0 (by simp [fix]) (by simp)
    simpa using h
  · refine (fix_spec [190, 10]).2.2 ?_ (-170) ?_
    · intro x hx
      rcases List.mem_cons.mp hx with h | h
      · rw [h]; norm_num
      · rcases List.mem_cons.mp h with h2 | h2
        · rw [h2]; norm_num
        · simp at h2
    · norm_num [fix]

end AifsPipeline
